import Mathlib

/-!
Verification of the content-addressable store (CAS) of coreos/rocket,
a shallow embedding of `cas/cas.go`.

Go strings are embedded as Lean `String` and manipulated through their
underlying character lists (`String.data`); the keys handled by the store
are ASCII, where Go's byte-wise operations and character-wise operations
coincide.  Go byte slices are embedded as `List Nat`.  Fallible Go
functions return `Except String` carrying the `fmt.Errorf` message, and
the filesystem state threaded through `WriteACI` is an explicit record.
-/

namespace Cas

/-- Embeds Go `len(s)` for an ASCII string. -/
def strLen (s : String) : Nat := s.data.length

/-- Embeds Go string slicing `s[:n]` for an ASCII string. -/
def strTake (s : String) (n : Nat) : String := ⟨s.data.take n⟩

/-- Embeds Go `strings.HasPrefix(s, p)`. -/
def strHasPrefix (s p : String) : Bool := p.data.isPrefixOf s.data

/-- Byte-wise (here character-wise, the keys being ASCII) lexicographic
comparison of Go strings, as used by `strLess` in `cas.go` and by the
ordered index. -/
def listLess : List Char → List Char → Bool
  | [], [] => false
  | [], _ :: _ => true
  | _ :: _, [] => false
  | a :: as, b :: bs =>
    if a.toNat < b.toNat then true
    else if b.toNat < a.toNat then false
    else listLess as bs

/-- Embeds `func strLess(a, b string) bool { return a < b }` from `cas.go`. -/
def strLess (a b : String) : Bool := listLess a.data b.data

/-! ### Key constants (`cas.go` lines 39-53) -/

/-- `hashPrefix = "sha512-"` -/
def hashPrefixStr : String := "sha512-"

/-- `lenHash = sha512.Size` (raw byte size of a SHA-512 digest). -/
def lenHash : Nat := 64

/-- `lenHashKey = (lenHash / 2) * 2` — half length, in hex characters. -/
def lenHashKey : Nat := (lenHash / 2) * 2

/-- `lenKey = len(hashPrefix) + lenHashKey` -/
def lenKey : Nat := strLen hashPrefixStr + lenHashKey

/-! ### Lowercase hex rendering (Go `fmt.Sprintf("%x", s)`) -/

/-- The lowercase hex digit for a value below 16, as produced by Go's `%x`. -/
def hexDigit (n : Nat) : Char :=
  if n < 10 then Char.ofNat (48 + n) else Char.ofNat (87 + n)

/-- The two lowercase hex characters of one byte, as produced by Go's `%x`. -/
def byteToHex (b : Nat) : List Char := [hexDigit (b / 16 % 16), hexDigit (b % 16)]

/-- Go `fmt.Sprintf("%x", s)` on a byte slice: lowercase hex, two characters
per byte. -/
def bytesToHex (s : List Nat) : List Char := s.flatMap byteToHex

/-- Whether a character is a lowercase hex digit. -/
def isLowerHexDigit (c : Char) : Bool :=
  (48 ≤ c.val && c.val ≤ 57) || (97 ≤ c.val && c.val ≤ 102)

/-- Embeds `HashToKey` (`cas.go` lines 364-370): formats the digest as
`sha512-<hex>` and truncates to `lenKey`.  The Go function panics when the
digest is not `lenHash` bytes; the panic is embedded as `none`. -/
def HashToKey (s : List Nat) : Option String :=
  if s.length = lenHash then
    some (strTake ⟨hashPrefixStr.data ++ bytesToHex s⟩ lenKey)
  else
    none

/-! ### The blob-store prefix scan and `ResolveKey` (`cas.go` lines 112-137) -/

/-- Modelled from the spec: the keyed file store's
`KeysPrefix(prefix) → lazy sequence of keys ≥ prefix that start with
prefix` (§4.2), for a store whose key set is `keys`.  The store itself
(the vendored diskv library) is outside the provided sources. -/
def KeysWithPrefix (keys : List String) (p : String) : List String :=
  keys.filter (fun k => strHasPrefix k p)

/-- Errors surfaced by `ResolveKey`, carrying the `fmt.Errorf` text. -/
def noKeysFoundMsg : String := "no keys found"

/-- The `fmt.Errorf("ambiguous key: %q", key)` message, carrying the
offending prefix. -/
def ambiguousKeyMsg (key : String) : String := "ambiguous key: " ++ key

/-- Embeds `ResolveKey` (`cas.go` lines 112-137) over a blob store whose
key set is `blobKeys`: truncate over-long input, short-circuit full keys,
otherwise count the keys with the given prefix. -/
def ResolveKey (blobKeys : List String) (key : String) : Except String String :=
  let key := if strLen key > lenKey then strTake key lenKey else key
  if strHasPrefix key hashPrefixStr && (strLen key = lenKey : Bool) then
    Except.ok key
  else
    match KeysWithPrefix blobKeys key with
    | [] => Except.error noKeysFoundMsg
    | [k] => Except.ok k
    | _ :: _ :: _ => Except.error (ambiguousKeyMsg key)

/-! ### Index records

The record types `ACIInfo` and `AppIndex` live in the `cas` package next
to `cas.go` but outside the provided sources; they are modelled from the
spec (§3, §4.3). -/

/-- A manifest label: a `(name, value)` pair. -/
structure Label where
  name : String
  value : String
deriving DecidableEq, Repr

/-- The two manifest fields the core inspects (spec §1): logical name and
labels. -/
structure ImageManifest where
  name : String
  labels : List Label
deriving DecidableEq, Repr

/-- Modelled from the spec: the `aciinfo` record — parsed manifest, blob
key, "latest" flag, import time (§3).  Import time is embedded as a `Nat`
tick count. -/
structure ACIInfo where
  im : ImageManifest
  blobKey : String
  latest : Bool
  time : Nat
deriving DecidableEq, Repr

/-- Embeds `NewACIInfo(im, key, latest, t)`. -/
def NewACIInfo (im : ImageManifest) (blobKey : String) (latest : Bool)
    (t : Nat) : ACIInfo :=
  { im := im, blobKey := blobKey, latest := latest, time := t }

/-- Modelled from the spec: the `aciinfo` record's own key is
`hash(blobKey)` truncated identically to a short digest (§4.3);
`shortDigest` is the short-digest helper of §6, kept abstract. -/
def aciInfoHash (shortDigest : String → String) (a : ACIInfo) : String :=
  shortDigest a.blobKey

/-- Modelled from the spec: the `appindex` record is a small pointer
record holding the `aciinfo` key (§3). -/
structure AppIndex where
  aciInfoKey : String
deriving DecidableEq, Repr

/-- Modelled from the spec: the `appindex` record's key is
`shortDigest(manifest.name) ∥ aciinfoKey` (§4.3). -/
def appIndexHash (shortDigest : String → String) (imName : String)
    (aciInfoKey : String) : String :=
  shortDigest imName ++ aciInfoKey

/-! ### Store state -/

/-- First-match association lookup, embedding a keyed file store's
`Read`. -/
def assocGet {α : Type} (m : List (String × α)) (key : String) : Option α :=
  match m with
  | [] => none
  | (k, v) :: rest => if k = key then some v else assocGet rest key

/-- Overwrite-wins insertion into a keyed file store. -/
def assocPut {α : Type} (m : List (String × α)) (key : String) (v : α) :
    List (String × α) :=
  (key, v) :: m.filter (fun kv => kv.1 ≠ key)

/-- Insertion into the sorted in-memory key index (spec §9: an ordered
index rebuilt per process), keeping keys strictly ascending under
`strLess`. -/
def insertSorted (key : String) : List String → List String
  | [] => [key]
  | k :: rest =>
    if strLess key k then key :: k :: rest
    else if key = k then k :: rest
    else k :: insertSorted key rest

/-- The observable filesystem state of the store: the `blob`, `aciinfo`
and `appindex` namespaces, the in-memory ordered key index of `appindex`,
and the names of in-flight files under `tmp/`. -/
structure StoreState where
  blob : List (String × List Nat)
  aciinfo : List (String × ACIInfo)
  appindex : List (String × AppIndex)
  appindexKeys : List String
  tmp : List String
deriving DecidableEq, Repr

/-- The store rooted at a fresh base directory. -/
def emptyStore : StoreState :=
  { blob := [], aciinfo := [], appindex := [], appindexKeys := [], tmp := [] }

/-! ### `WriteIndex` (`cas.go` lines 222-229) -/

/-- Embeds `WriteIndex`: marshal the record, then call the keyed file
store's `Write` — whose return value the Go code discards
(`ds.stores[i.Type()].Write(i.Hash(), m)` on line 227), returning `nil`
whether or not that write succeeded.  `marshalErr`/`writeErr` are the
outcomes of the two external calls; a failed `Write` leaves the store
unchanged. -/
def WriteIndexModel {α : Type} (marshalErr : Option String)
    (writeErr : Option String) (store : List (String × α)) (key : String)
    (v : α) : Except String (List (String × α)) :=
  match marshalErr with
  | some e => Except.error e
  | none =>
    match writeErr with
    | some _ => Except.ok store
    | none => Except.ok (assocPut store key v)

/-! ### `WriteACI` (`cas.go` lines 152-213) -/

/-- The outcomes of the external calls made by one `WriteACI` execution;
each field is the result of a step whose implementation (bufio peek, type
sniffing, decompression, temp-file creation, tar copy, manifest parsing,
diskv import and writes) lives outside the provided sources.  `bytes` is
the decompressed image content. -/
structure WriteInput where
  headerErr : Option String
  detectErr : Option String
  decompressErr : Option String
  tmpErr : Option String
  tmpName : String
  copyErr : Option String
  bytes : List Nat
  manifestRes : Except String ImageManifest
  closeErr : Option String
  importErr : Option String
  marshalACIInfoErr : Option String
  writeACIInfoErr : Option String
  marshalAppIndexErr : Option String
  writeAppIndexErr : Option String
deriving Repr

/-- The observable filesystem events of one `WriteACI` execution, in
order. -/
inductive Event where
  | createTmp (name : String)
  | removeTmp (name : String)
  | importBlob (key : String)
  | writeACIInfoRec (key : String)
  | writeAppIndexRec (key : String)
deriving DecidableEq, Repr

/-- Embeds `WriteACI` (`cas.go` lines 152-213) as explicit state passing:
detect the file type, decompress, tee to a temp file while hashing
(`sha512` is the digest function, kept abstract), extract the manifest,
derive the key, import the blob, then write the `aciinfo` and `appindex`
records.  Returns the Go result, the final state, and the event trace.
None of the failure returns removes the temp file. -/
def WriteACI (sha512 : List Nat → List Nat) (shortDigest : String → String)
    (st : StoreState) (inp : WriteInput) (latest : Bool) (now : Nat) :
    Except String String × StoreState × List Event :=
  match inp.headerErr with
  | some e => (Except.error ("error reading image header: " ++ e), st, [])
  | none =>
  match inp.detectErr with
  | some e => (Except.error ("error detecting image type: " ++ e), st, [])
  | none =>
  match inp.decompressErr with
  | some e => (Except.error ("error decompressing image: " ++ e), st, [])
  | none =>
  match inp.tmpErr with
  | some e => (Except.error ("error creating image: " ++ e), st, [])
  | none =>
  -- the temp file now exists under tmp/
  let st := { st with tmp := inp.tmpName :: st.tmp }
  let evs := [Event.createTmp inp.tmpName]
  match inp.copyErr with
  | some e => (Except.error ("error copying image: " ++ e), st, evs)
  | none =>
  match inp.manifestRes with
  | Except.error e =>
      (Except.error ("error extracting ImageManifest: " ++ e), st, evs)
  | Except.ok im =>
  match inp.closeErr with
  | some e => (Except.error ("error closing image: " ++ e), st, evs)
  | none =>
  match HashToKey (sha512 inp.bytes) with
  | none => (Except.error ("panic: bad hash passed to hashToKey"), st, evs)
  | some key =>
  match inp.importErr with
  | some e => (Except.error ("error importing image: " ++ e), st, evs)
  | none =>
  -- Import(fh.Name(), key, true): the temp file is renamed into blob
  let st := { st with
    blob := assocPut st.blob key inp.bytes,
    tmp := st.tmp.filter (fun n => n ≠ inp.tmpName) }
  let evs := evs ++ [Event.importBlob key, Event.removeTmp inp.tmpName]
  let aciinfo := NewACIInfo im key latest now
  let aciInfoKey := aciInfoHash shortDigest aciinfo
  match WriteIndexModel inp.marshalACIInfoErr inp.writeACIInfoErr
      st.aciinfo aciInfoKey aciinfo with
  | Except.error e =>
      (Except.error ("error writing aciinfo index: " ++ e), st, evs)
  | Except.ok aciinfoStore =>
  let st := { st with aciinfo := aciinfoStore }
  let evs := evs ++
    match inp.writeACIInfoErr with
    | none => [Event.writeACIInfoRec aciInfoKey]
    | some _ => []
  let appIndexKey := appIndexHash shortDigest im.name aciInfoKey
  match WriteIndexModel inp.marshalAppIndexErr inp.writeAppIndexErr
      st.appindex appIndexKey ⟨aciInfoKey⟩ with
  | Except.error e =>
      (Except.error ("error writing appindex index: " ++ e), st, evs)
  | Except.ok appindexStore =>
  let st := { st with
    appindex := appindexStore,
    appindexKeys :=
      match inp.writeAppIndexErr with
      | none => insertSorted appIndexKey st.appindexKeys
      | some _ => st.appindexKeys }
  let evs := evs ++
    match inp.writeAppIndexErr with
    | none => [Event.writeAppIndexRec appIndexKey]
    | some _ => []
  (Except.ok key, st, evs)

/-! ### `GetACI` (`cas.go` lines 250-337) -/

/-- Modelled from the spec: the ordered in-memory index's
`Keys(from, n)` — at most `n` keys ≥ `from` in ascending order, never
returning `from` itself (§4.5, §9); over a strictly ascending `idx` this
is the first `n` keys strictly greater than `from`. -/
def indexKeysFrom (idx : List String) (start : String) (n : Nat) :
    List String :=
  (idx.filter (fun k => strLess start k)).take n

/-- One batch of the candidate-enumeration inner loop (`cas.go` lines
263-269): each key of the batch is tested with
`strings.HasPrefix(ACIInfoKey, startACIInfoKey)` against the loop's
*current* `startACIInfoKey` — not the original name digest — keeping the
keys that pass and setting `finished` at any key that does not. -/
def scanBatch (start : String) (acc : List String × Bool)
    (batch : List String) : List String × Bool :=
  batch.foldl
    (fun ab k =>
      if strHasPrefix k start then (ab.1 ++ [k], ab.2) else (ab.1, true))
    acc

/-- The candidate-enumeration loop of `GetACI` (`cas.go` lines 253-271),
with explicit fuel; `none` models a run that exceeds the fuel (the Go
loop has no bound of its own).  The single Go variable `startACIInfoKey`
is the `start` argument: it is both the `Keys(start, 10)` query point and
the string the batch's keys are prefix-tested against, and it is
reassigned to the last key of each batch (`cas.go` line 270). -/
def collectLoop (idx : List String) :
    Nat → String → Bool → List String → Option (List String)
  | 0, _, _, _ => none
  | _ + 1, _, true, acc => some acc
  | fuel + 1, start, false, acc =>
    match indexKeysFrom idx start 10 with
    | [] => some acc
    | k :: ks =>
      let res := scanBatch start (acc, false) (k :: ks)
      collectLoop idx fuel ((k :: ks).getLastD start) res.2 res.1

/-- Candidate enumeration of `GetACI`: run the loop from
`startACIInfoKey = shortDigest(name)` with fuel `idx.length + 1` (enough
for any index, proved below). -/
def collectKeys (idx : List String) (p : String) : Option (List String) :=
  collectLoop idx (idx.length + 1) p false []

/-- The label filter of `GetACI` (`cas.go` lines 299-311): every
requested label pair must appear verbatim among the manifest's labels. -/
def labelsMatch (requested manifest : List Label) : Bool :=
  requested.all (fun l =>
    manifest.any (fun rl => l.name == rl.name && l.value == rl.value))

/-- The incumbent-update step of `GetACI`'s ranking (`cas.go` lines
313-330): without a requested version the `latest` flag dominates,
otherwise the strictly later import time wins and a tie keeps the
incumbent. -/
def selectStep (versionRequested : Bool) (cur cand : ACIInfo) : ACIInfo :=
  if !versionRequested && (!cur.latest && cand.latest) then cand
  else if !versionRequested && (cur.latest && !cand.latest) then cur
  else if cur.time < cand.time then cand
  else cur

/-- The body of `GetACI`'s per-candidate loop (`cas.go` lines 280-331):
read the `appindex` record, dereference its `aciinfo` record, filter by
labels, and update the incumbent. -/
def processKey (st : StoreState) (labels : List Label)
    (versionRequested : Bool) (acc : Option ACIInfo) (key : String) :
    Except String (Option ACIInfo) :=
  match assocGet st.appindex key with
  | none => Except.error ("cannot get AppIndex for key " ++ key)
  | some appindex =>
    match assocGet st.aciinfo appindex.aciInfoKey with
    | none =>
        Except.error ("cannot get ACIInfo for key " ++ appindex.aciInfoKey)
    | some aciinfo =>
      if labelsMatch labels aciinfo.im.labels then
        match acc with
        | none => Except.ok (some aciinfo)
        | some cur => Except.ok (some (selectStep versionRequested cur aciinfo))
      else
        Except.ok acc

/-- Embeds `GetACI` (`cas.go` lines 250-337): enumerate the `appindex`
keys with prefix `shortDigest(name)`, filter by labels, rank, and return
the best candidate's blob key or the `"aci not found"` error.  The outer
`none` models non-termination of the enumeration loop. -/
def GetACI (shortDigest : String → String) (st : StoreState) (name : String)
    (labels : List Label) : Option (Except String String) :=
  match collectKeys st.appindexKeys (shortDigest name) with
  | none => none
  | some keys =>
    let versionRequested := (labels.filter (fun l => l.name = "version")) ≠ []
    some (do
      let cur ← keys.foldlM (processKey st labels versionRequested) none
      match cur with
      | some aciinfo => pure aciinfo.blobKey
      | none => Except.error ("aci not found"))

/-! ### Concrete fixtures used to exercise the model on closed inputs -/

/-- A stand-in digest function: every stream hashes to 64 zero bytes. -/
def testSha : List Nat → List Nat := fun _ => List.replicate 64 0

/-- A stand-in short-digest helper: the first four characters. -/
def testDigest : String → String := fun s => strTake s 4

/-- A fully successful `WriteACI` interaction. -/
def goodInput : WriteInput :=
  { headerErr := none, detectErr := none, decompressErr := none,
    tmpErr := none, tmpName := "tmp0", copyErr := none, bytes := [1, 2],
    manifestRes := Except.ok ⟨"example.com/app", [⟨"version", "1.0"⟩]⟩,
    closeErr := none, importErr := none, marshalACIInfoErr := none,
    writeACIInfoErr := none, marshalAppIndexErr := none,
    writeAppIndexErr := none }

/-- The key of 64 zero hex characters, `HashToKey` of 64 zero bytes. -/
def testKey : String :=
  "sha512-0000000000000000000000000000000000000000000000000000000000000000"

/-- A 72-character input to `ResolveKey`, longer than the canonical key. -/
def longKey : String := testKey ++ "0"

/-- A second store key sharing the algorithm tag with `testKey`. -/
def testKey2 : String := "sha512-1"

/-- A candidate not marked latest, imported at tick 3. -/
def infoA : ACIInfo :=
  { im := ⟨"example.com/app", []⟩, blobKey := "k1", latest := false, time := 3 }

/-- A candidate marked latest, imported at tick 1. -/
def infoB : ACIInfo :=
  { im := ⟨"example.com/app", []⟩, blobKey := "k2", latest := true, time := 1 }

/-- A store holding `infoB` behind one `appindex` record. -/
def st3 : StoreState :=
  { emptyStore with appindex := [("px", ⟨"ky"⟩)], aciinfo := [("ky", infoB)] }

/-- A store with one indexed `appindex` entry reachable from the name
digest `"exam"`. -/
def st7 : StoreState :=
  { emptyStore with
      appindex := [("exam0", ⟨"ky"⟩)]
      aciinfo := [("ky", infoB)]
      appindexKeys := ["exam0"] }

/-- Eleven ascending equal-length index keys sharing the prefix `"p"`:
one more than one query batch. -/
def keys11 : List String :=
  ["p00", "p01", "p02", "p03", "p04", "p05", "p06", "p07", "p08", "p09",
   "p10"]

/-- The first ten of `keys11`: what the enumeration loop collects. -/
def keys10 : List String :=
  ["p00", "p01", "p02", "p03", "p04", "p05", "p06", "p07", "p08", "p09"]

/-- A `WriteACI` interaction whose manifest extraction fails. -/
def badManifestInput : WriteInput :=
  { goodInput with manifestRes := Except.error "no manifest" }

/-- A `WriteACI` interaction whose blob-store import fails. -/
def badImportInput : WriteInput :=
  { goodInput with importErr := some "rename failed" }

/-! ## Theorems -/

/-! ### Hex rendering lemmas -/

theorem bytesToHex_length (s : List Nat) : (bytesToHex s).length = 2 * s.length := by
  induction s with
  | nil => rfl
  | cons b bs ih =>
    simp only [bytesToHex, List.flatMap_cons, List.length_append] at ih ⊢
    simp only [byteToHex, List.length_cons, List.length_nil, List.length]
    omega

theorem bytesToHex_take (s : List Nat) (n : Nat) :
    bytesToHex (s.take n) = (bytesToHex s).take (2 * n) := by
  induction s generalizing n with
  | nil => simp [bytesToHex]
  | cons b bs ih =>
    cases n with
    | zero => simp [bytesToHex]
    | succ m =>
      have h2 : 2 * (m + 1) = (2 * m + 1) + 1 := by ring
      have ih' := ih m
      simp only [bytesToHex] at ih' ⊢
      simp only [List.take_succ_cons, List.flatMap_cons, byteToHex,
        List.cons_append, List.nil_append, h2, List.take_succ_cons]
      rw [ih']

theorem hexDigit_lower : ∀ n, n < 16 → isLowerHexDigit (hexDigit n) = true := by
  decide

theorem bytesToHex_lower (s : List Nat) :
    ∀ c ∈ bytesToHex s, isLowerHexDigit c = true := by
  induction s with
  | nil => simp [bytesToHex]
  | cons b bs ih =>
    intro c hc
    simp only [bytesToHex, List.flatMap_cons, List.mem_append, byteToHex,
      List.mem_cons, List.not_mem_nil, or_false] at hc
    rcases hc with (h | h) | h
    · subst h; exact hexDigit_lower _ (by omega)
    · subst h; exact hexDigit_lower _ (by omega)
    · exact ih c h

theorem strLen_strTake (s : String) (n : Nat) :
    strLen (strTake s n) = min n (strLen s) := by
  simp [strLen, strTake]

theorem hashToKey_eq (s : List Nat) (h : s.length = lenHash) :
    HashToKey s = some ⟨hashPrefixStr.data ++ bytesToHex (s.take (lenHash / 2))⟩ := by
  unfold HashToKey
  rw [if_pos h]
  unfold strTake
  congr 1
  apply String.ext
  show (hashPrefixStr.data ++ bytesToHex s).take lenKey = _
  rw [List.take_append_eq_append_take]
  have h7 : hashPrefixStr.data.length = 7 := rfl
  have hlk : lenKey = 71 := rfl
  rw [List.take_of_length_le (by rw [h7, hlk]; omega)]
  rw [bytesToHex_take]
  show _ = hashPrefixStr.data ++ List.take (2 * (lenHash / 2)) (bytesToHex s)
  rw [h7, hlk]
  rfl

/-! ### Store lemmas -/

theorem assocGet_put_self {α : Type} (m : List (String × α)) (k : String) (v : α) :
    assocGet (assocPut m k v) k = some v := by
  simp [assocGet, assocPut]

/-! ### `WriteACI` success inversion -/

/-- Any key returned by a successful `WriteACI` came out of `HashToKey`
applied to the digest of the decompressed bytes, and those bytes sit in
the blob store under that key in the final state. -/
theorem writeACI_ok_inv (sha : List Nat → List Nat) (dig : String → String)
    (st : StoreState) (inp : WriteInput) (latest : Bool) (now : Nat)
    (key : String) (st2 : StoreState) (evs : List Event)
    (h : WriteACI sha dig st inp latest now = (Except.ok key, st2, evs)) :
    HashToKey (sha inp.bytes) = some key ∧
    st2.blob = assocPut st.blob key inp.bytes := by
  unfold WriteACI at h
  cases h1 : inp.headerErr <;> simp only [h1] at h
  case some => simp at h
  cases h2 : inp.detectErr <;> simp only [h2] at h
  case some => simp at h
  cases h3 : inp.decompressErr <;> simp only [h3] at h
  case some => simp at h
  cases h4 : inp.tmpErr <;> simp only [h4] at h
  case some => simp at h
  cases h5 : inp.copyErr <;> simp only [h5] at h
  case some => simp at h
  cases h6 : inp.manifestRes <;> simp only [h6] at h
  case error => simp at h
  cases h7 : inp.closeErr <;> simp only [h7] at h
  case some => simp at h
  cases h8 : HashToKey (sha inp.bytes) <;> simp only [h8] at h
  case none => simp at h
  cases h9 : inp.importErr <;> simp only [h9] at h
  case some => simp at h
  cases h10 : inp.marshalACIInfoErr <;>
    simp only [WriteIndexModel, h10] at h
  case some => simp at h
  cases h12 : inp.writeACIInfoErr <;> simp only [h12] at h <;>
      cases h11 : inp.marshalAppIndexErr <;> simp only [h11] at h
  · cases h13 : inp.writeAppIndexErr <;>
        simp only [h13, Prod.mk.injEq, Except.ok.injEq] at h <;>
      obtain ⟨hk, hst, -⟩ := h <;> subst hk <;> exact ⟨rfl, by rw [← hst]⟩
  · simp at h
  · cases h13 : inp.writeAppIndexErr <;>
        simp only [h13, Prod.mk.injEq, Except.ok.injEq] at h <;>
      obtain ⟨hk, hst, -⟩ := h <;> subst hk <;> exact ⟨rfl, by rw [← hst]⟩
  · simp at h

theorem hashToKey_some_len (s : List Nat) (key : String)
    (h : HashToKey s = some key) : strLen key = lenKey := by
  unfold HashToKey at h
  split at h
  · next hs =>
    injection h with h
    subst h
    rw [strLen_strTake]
    have hl : strLen ⟨hashPrefixStr.data ++ bytesToHex s⟩ = 7 + 2 * s.length := by
      show (hashPrefixStr.data ++ bytesToHex s).length = _
      rw [List.length_append, bytesToHex_length,
        show hashPrefixStr.data.length = 7 from rfl]
    rw [hl, hs]
    rfl
  · cases h

/-- C1: for every admitted input stream the returned blob key is the
literal `sha512-` tag followed by the first half of the SHA-512 digest of
the decompressed bytes rendered in lowercase hex — 64 hex characters, 71
characters in total — and every key `WriteACI` admits into the blob store
has exactly this length. -/
theorem c1_key_format :
    (∀ s : List Nat, s.length = lenHash →
      HashToKey s = some ⟨hashPrefixStr.data ++ bytesToHex (s.take (lenHash / 2))⟩ ∧
      (bytesToHex (s.take (lenHash / 2))).length = 64 ∧
      strLen ⟨hashPrefixStr.data ++ bytesToHex (s.take (lenHash / 2))⟩ = 71 ∧
      (∀ c ∈ bytesToHex (s.take (lenHash / 2)), isLowerHexDigit c = true)) ∧
    (∀ sha dig st inp latest now key st2 evs,
      WriteACI sha dig st inp latest now = (Except.ok key, st2, evs) →
      HashToKey (sha inp.bytes) = some key ∧ strLen key = lenKey ∧
      assocGet st2.blob key = some inp.bytes) := by
  constructor
  · intro s hs
    have hlen : (bytesToHex (s.take (lenHash / 2))).length = 64 := by
      rw [bytesToHex_length, List.length_take, hs]
      rfl
    refine ⟨hashToKey_eq s hs, hlen, ?_, bytesToHex_lower _⟩
    show (hashPrefixStr.data ++ bytesToHex (s.take (lenHash / 2))).length = 71
    rw [List.length_append, hlen, show hashPrefixStr.data.length = 7 from rfl]
  · intro sha dig st inp latest now key st2 evs h
    obtain ⟨hk, hblob⟩ := writeACI_ok_inv sha dig st inp latest now key st2 evs h
    exact ⟨hk, hashToKey_some_len _ _ hk, by rw [hblob]; exact assocGet_put_self ..⟩

/-- Witness for C1 at concrete inputs: the all-zero digest and a fully
successful `WriteACI` run. -/
theorem c1_key_format_witness :
    HashToKey (List.replicate 64 (0 : Nat)) =
      some ⟨hashPrefixStr.data ++
        bytesToHex ((List.replicate 64 (0 : Nat)).take (lenHash / 2))⟩ ∧
    strLen testKey = lenKey ∧
    assocGet (WriteACI testSha testDigest emptyStore goodInput true 5).2.1.blob
      testKey = some goodInput.bytes :=
  ⟨(c1_key_format.1 (List.replicate 64 0) (by simp [lenHash])).1,
   ((c1_key_format.2 testSha testDigest emptyStore goodInput true 5 testKey
      (WriteACI testSha testDigest emptyStore goodInput true 5).2.1
      (WriteACI testSha testDigest emptyStore goodInput true 5).2.2
      rfl).2.1),
   ((c1_key_format.2 testSha testDigest emptyStore goodInput true 5 testKey
      (WriteACI testSha testDigest emptyStore goodInput true 5).2.1
      (WriteACI testSha testDigest emptyStore goodInput true 5).2.2
      rfl).2.2)⟩

/-- C2: `ResolveKey` first truncates over-long input to the canonical key
length; a (possibly truncated) input of exactly the canonical length
carrying the `sha512-` tag is returned unchanged whatever the store
holds (no store I/O); otherwise the store's keys with that prefix decide:
zero matches give `NotFound`, one match gives that full key, two or more
give `Ambiguous` carrying the offending prefix. -/
theorem c2_resolveKey_spec :
    (∀ keys key, strLen key > lenKey →
      ResolveKey keys key = ResolveKey keys (strTake key lenKey)) ∧
    (∀ keys key, strLen key = lenKey → strHasPrefix key hashPrefixStr = true →
      ResolveKey keys key = Except.ok key) ∧
    (∀ keys key, strLen key ≤ lenKey →
      (strHasPrefix key hashPrefixStr && decide (strLen key = lenKey)) = false →
      (KeysWithPrefix keys key = [] →
        ResolveKey keys key = Except.error noKeysFoundMsg) ∧
      (∀ k, KeysWithPrefix keys key = [k] →
        ResolveKey keys key = Except.ok k) ∧
      (2 ≤ (KeysWithPrefix keys key).length →
        ResolveKey keys key = Except.error (ambiguousKeyMsg key))) := by
  refine ⟨?_, ?_, ?_⟩
  · intro keys key hlong
    simp only [ResolveKey]
    rw [if_pos hlong]
    have h2 : ¬ strLen (strTake key lenKey) > lenKey := by
      rw [strLen_strTake]; omega
    rw [if_neg h2]
  · intro keys key hlen hpre
    simp only [ResolveKey]
    rw [if_neg (by omega : ¬ strLen key > lenKey)]
    have : (strHasPrefix key hashPrefixStr && decide (strLen key = lenKey)) = true := by
      rw [hpre, hlen]; simp
    rw [this]
    simp
  · intro keys key hshort hcond
    have hno : ¬ strLen key > lenKey := by omega
    refine ⟨?_, ?_, ?_⟩
    · intro hempty
      simp only [ResolveKey]
      rw [if_neg hno, hcond, hempty]
      simp
    · intro k hone
      simp only [ResolveKey]
      rw [if_neg hno, hcond, hone]
      simp
    · intro htwo
      obtain ⟨a, b, rest, hm⟩ : ∃ a b rest,
          KeysWithPrefix keys key = a :: b :: rest := by
        cases hkp : KeysWithPrefix keys key with
        | nil => rw [hkp] at htwo; simp at htwo
        | cons a tl =>
          cases tl with
          | nil => rw [hkp] at htwo; simp at htwo
          | cons b rest => exact ⟨a, b, rest, rfl⟩
      simp only [ResolveKey]
      rw [if_neg hno, hcond, hm]
      simp

/-- Witness for C2: a 72-character input, a full canonical key, and a
store holding zero, one, and two matches of a short prefix. -/
theorem c2_resolveKey_spec_witness :
    ResolveKey [] longKey = ResolveKey [] (strTake longKey lenKey) ∧
    ResolveKey [] testKey = Except.ok testKey ∧
    ResolveKey [] "sha512-0" = Except.error noKeysFoundMsg ∧
    ResolveKey [testKey] "sha512-0" = Except.ok testKey ∧
    ResolveKey [testKey, testKey2] hashPrefixStr =
      Except.error (ambiguousKeyMsg hashPrefixStr) :=
  ⟨c2_resolveKey_spec.1 [] longKey (by decide),
   c2_resolveKey_spec.2.1 [] testKey (by decide) (by decide),
   (c2_resolveKey_spec.2.2 [] "sha512-0" (by decide) (by decide)).1 (by decide),
   (c2_resolveKey_spec.2.2 [testKey] "sha512-0" (by decide) (by decide)).2.1
     testKey (by decide),
   (c2_resolveKey_spec.2.2 [testKey, testKey2] hashPrefixStr (by decide)
     (by decide)).2.2 (by decide)⟩

/-- C3: in `GetACI`'s ranking, when no `version` label was requested a
candidate marked `latest` strictly beats an unmarked incumbent and vice
versa; among candidates equal on the `latest` criterion, or whenever a
version was requested, the strictly later import timestamp wins, and an
exact timestamp tie keeps the incumbent.  The last conjunct ties the step
to `GetACI`'s per-candidate loop on a surviving candidate. -/
theorem c3_ranking :
    (∀ (vR : Bool) (cur cand : ACIInfo), vR = false →
      (cur.latest = false → cand.latest = true → selectStep vR cur cand = cand) ∧
      (cur.latest = true → cand.latest = false → selectStep vR cur cand = cur)) ∧
    (∀ (vR : Bool) (cur cand : ACIInfo), (vR = true ∨ cur.latest = cand.latest) →
      (cur.time < cand.time → selectStep vR cur cand = cand) ∧
      (cand.time ≤ cur.time → selectStep vR cur cand = cur)) ∧
    (∀ st labels vR cur key ai cand,
      assocGet st.appindex key = some ai →
      assocGet st.aciinfo ai.aciInfoKey = some cand →
      labelsMatch labels cand.im.labels = true →
      processKey st labels vR (some cur) key =
        Except.ok (some (selectStep vR cur cand))) := by
  refine ⟨?_, ?_, ?_⟩
  · intro vR cur cand hvR
    subst hvR
    constructor
    · intro h1 h2
      simp [selectStep, h1, h2]
    · intro h1 h2
      simp [selectStep, h1, h2]
  · intro vR cur cand h
    constructor
    · intro ht
      rcases h with h | h
      · subst h
        simp [selectStep, ht]
      · cases hl : cand.latest <;> simp [selectStep, h, hl, ht]
    · intro ht
      have hnt : ¬ cur.time < cand.time := by omega
      rcases h with h | h
      · subst h
        simp [selectStep, hnt]
      · cases hl : cand.latest <;> simp [selectStep, h, hl, hnt]
  · intro st labels vR cur key ai cand h1 h2 h3
    simp [processKey, h1, h2, h3]

/-- Witness for C3: a `latest` candidate displacing an unmarked incumbent
with a later timestamp, the timestamp rule under a requested version, and
the loop step on a concrete store. -/
theorem c3_ranking_witness :
    selectStep false infoA infoB = infoB ∧
    selectStep true infoA infoB = infoA ∧
    processKey st3 [] false (some infoA) "px" =
      Except.ok (some (selectStep false infoA infoB)) :=
  ⟨(c3_ranking.1 false infoA infoB rfl).1 rfl rfl,
   (c3_ranking.2.1 true infoA infoB (Or.inl rfl)).2 (by decide),
   c3_ranking.2.2 st3 [] false infoA "px" ⟨"ky"⟩ infoB (by decide) (by decide)
     (by decide)⟩

theorem foldlM_processKey_none (st : StoreState) (labels : List Label)
    (vR : Bool) (keys : List String)
    (h : ∀ key ∈ keys, ∃ ai cand, assocGet st.appindex key = some ai ∧
      assocGet st.aciinfo ai.aciInfoKey = some cand ∧
      labelsMatch labels cand.im.labels = false) :
    keys.foldlM (processKey st labels vR) none = Except.ok none := by
  induction keys with
  | nil => rfl
  | cons k ks ih =>
    obtain ⟨ai, cand, h1, h2, h3⟩ := h k (List.mem_cons_self ..)
    have hstep : processKey st labels vR none k = Except.ok none := by
      simp [processKey, h1, h2, h3]
    show processKey st labels vR none k >>=
      (fun acc => ks.foldlM (processKey st labels vR) acc) = Except.ok none
    rw [hstep]
    show ks.foldlM (processKey st labels vR) none = Except.ok none
    exact ih (fun key hk => h key (List.mem_cons_of_mem _ hk))

/-- C7: a `GetACI` candidate survives the filter iff every requested
`(name, value)` pair appears verbatim among its manifest's labels (extra
manifest labels never disqualify), and if no candidate survives, `GetACI`
returns the not-found error instead of a blob key. -/
theorem c7_label_filter :
    (∀ requested manifest : List Label,
      labelsMatch requested manifest = true ↔
        ∀ l ∈ requested, ∃ rl ∈ manifest,
          rl.name = l.name ∧ rl.value = l.value) ∧
    (∀ (dig : String → String) (st : StoreState) (name : String)
        (labels : List Label) (keys : List String),
      collectKeys st.appindexKeys (dig name) = some keys →
      (∀ key ∈ keys, ∃ ai cand, assocGet st.appindex key = some ai ∧
        assocGet st.aciinfo ai.aciInfoKey = some cand ∧
        labelsMatch labels cand.im.labels = false) →
      GetACI dig st name labels = some (Except.error ("aci not found"))) := by
  constructor
  · intro requested manifest
    simp only [labelsMatch, List.all_eq_true, List.any_eq_true,
      Bool.and_eq_true, beq_iff_eq]
    constructor
    · intro h l hl
      obtain ⟨rl, hrl, h1, h2⟩ := h l hl
      exact ⟨rl, hrl, h1.symm, h2.symm⟩
    · intro h l hl
      obtain ⟨rl, hrl, h1, h2⟩ := h l hl
      exact ⟨rl, hrl, h1.symm, h2.symm⟩
  · intro dig st name labels keys hck hall
    unfold GetACI
    rw [hck]
    show some _ = _
    rw [foldlM_processKey_none st labels _ keys hall]
    rfl

/-- Witness for C7: a surviving pair of labels under the iff, and a store
whose only candidate fails an `arch=arm` constraint. -/
theorem c7_label_filter_witness :
    (∀ l ∈ [Label.mk "os" "linux"],
      ∃ rl ∈ [Label.mk "version" "2.0", Label.mk "os" "linux"],
        rl.name = l.name ∧ rl.value = l.value) ∧
    GetACI testDigest st7 "example.com/app" [⟨"arch", "arm"⟩] =
      some (Except.error ("aci not found")) :=
  ⟨(c7_label_filter.1 _ _).mp (by decide),
   c7_label_filter.2 testDigest st7 "example.com/app" [⟨"arch", "arm"⟩]
     ["exam0"] (by decide)
     (by
       intro key hk
       rw [List.mem_singleton] at hk
       subst hk
       exact ⟨⟨"ky"⟩, infoB, by decide, by decide, by decide⟩)⟩

/-- The full success path of `WriteACI`: when every external call
succeeds, the blob is imported under the derived key, the temp file
leaves `tmp/`, and the two index records are written, in that order. -/
theorem writeACI_success_eq (sha : List Nat → List Nat)
    (dig : String → String) (st : StoreState) (inp : WriteInput)
    (latest : Bool) (now : Nat) (im : ImageManifest) (key : String)
    (h1 : inp.headerErr = none) (h2 : inp.detectErr = none)
    (h3 : inp.decompressErr = none) (h4 : inp.tmpErr = none)
    (h5 : inp.copyErr = none) (h6 : inp.manifestRes = Except.ok im)
    (h7 : inp.closeErr = none) (h8 : HashToKey (sha inp.bytes) = some key)
    (h9 : inp.importErr = none) (h10 : inp.marshalACIInfoErr = none)
    (h11 : inp.writeACIInfoErr = none) (h12 : inp.marshalAppIndexErr = none)
    (h13 : inp.writeAppIndexErr = none) :
    WriteACI sha dig st inp latest now =
      (Except.ok key,
       { blob := assocPut st.blob key inp.bytes,
         aciinfo := assocPut st.aciinfo (dig key) (NewACIInfo im key latest now),
         appindex := assocPut st.appindex (dig im.name ++ dig key) ⟨dig key⟩,
         appindexKeys := insertSorted (dig im.name ++ dig key) st.appindexKeys,
         tmp := st.tmp.filter (fun n => n ≠ inp.tmpName) },
       [Event.createTmp inp.tmpName, Event.importBlob key,
        Event.removeTmp inp.tmpName, Event.writeACIInfoRec (dig key),
        Event.writeAppIndexRec (dig im.name ++ dig key)]) := by
  simp [WriteACI, h1, h2, h3, h4, h5, h6, h7, h8, h9, h10, h11, h12, h13,
    WriteIndexModel, NewACIInfo, aciInfoHash, appIndexHash]

/-- C4 (refuting the claim): `WriteACI` does not remove the temp file on
its failure paths.  At a concrete input whose manifest extraction fails,
the call returns the error but the final state still holds the temp file
under `tmp/`; the success path does remove it by renaming it into the
blob store. -/
theorem c4_temp_file_leaked_on_failure :
    (WriteACI testSha testDigest emptyStore badManifestInput true 5).1 =
      Except.error ("error extracting ImageManifest: no manifest") ∧
    (WriteACI testSha testDigest emptyStore badManifestInput true 5).2.1.tmp =
      ["tmp0"] ∧
    (WriteACI testSha testDigest emptyStore badImportInput true 5).1 =
      Except.error ("error importing image: rename failed") ∧
    (WriteACI testSha testDigest emptyStore badImportInput true 5).2.1.tmp =
      ["tmp0"] ∧
    (WriteACI testSha testDigest emptyStore goodInput true 5).2.1.tmp = [] := by
  refine ⟨rfl, rfl, rfl, rfl, rfl⟩

/-- C5 (refuting the claim): `WriteIndex` discards the keyed file store's
`Write` error (`cas.go` line 227) and returns `nil`; with a failing
write it still reports success and the store is left unchanged, and
after a successful marshal it can never return an error. -/
theorem c5_writeIndex_swallows_write_error :
    WriteIndexModel (α := ACIInfo) none (some ("disk full")) [] "k" infoA =
      Except.ok [] ∧
    (∀ (writeErr : Option String) (store : List (String × ACIInfo)) key v,
      ∃ store2, WriteIndexModel none writeErr store key v =
        Except.ok store2) := by
  refine ⟨rfl, ?_⟩
  intro writeErr store key v
  cases writeErr <;> exact ⟨_, rfl⟩

/-- C8: within one `WriteACI` execution the blob import happens strictly
before the `aciinfo` write, which happens strictly before the `appindex`
write; and when blob admission fails, the call returns with both index
stores untouched and no index-write event. -/
theorem c8_ordering :
    (∀ sha dig st inp latest now im key,
      inp.headerErr = none → inp.detectErr = none →
      inp.decompressErr = none → inp.tmpErr = none → inp.copyErr = none →
      inp.manifestRes = Except.ok im → inp.closeErr = none →
      HashToKey (sha inp.bytes) = some key → inp.importErr = none →
      inp.marshalACIInfoErr = none → inp.writeACIInfoErr = none →
      inp.marshalAppIndexErr = none → inp.writeAppIndexErr = none →
      (WriteACI sha dig st inp latest now).2.2 =
        [Event.createTmp inp.tmpName, Event.importBlob key,
         Event.removeTmp inp.tmpName, Event.writeACIInfoRec (dig key),
         Event.writeAppIndexRec (dig im.name ++ dig key)]) ∧
    (∀ sha dig st inp latest now im key e,
      inp.headerErr = none → inp.detectErr = none →
      inp.decompressErr = none → inp.tmpErr = none → inp.copyErr = none →
      inp.manifestRes = Except.ok im → inp.closeErr = none →
      HashToKey (sha inp.bytes) = some key → inp.importErr = some e →
      WriteACI sha dig st inp latest now =
        (Except.error ("error importing image: " ++ e),
         { st with tmp := inp.tmpName :: st.tmp },
         [Event.createTmp inp.tmpName])) := by
  constructor
  · intro sha dig st inp latest now im key h1 h2 h3 h4 h5 h6 h7 h8 h9 h10
      h11 h12 h13
    rw [writeACI_success_eq sha dig st inp latest now im key h1 h2 h3 h4 h5
      h6 h7 h8 h9 h10 h11 h12 h13]
  · intro sha dig st inp latest now im key e h1 h2 h3 h4 h5 h6 h7 h8 h9
    simp [WriteACI, h1, h2, h3, h4, h5, h6, h7, h8, h9]

/-- Witness for C8: the success trace at a concrete run, and the
untouched index stores at a concrete failing import. -/
theorem c8_ordering_witness :
    (WriteACI testSha testDigest emptyStore goodInput true 5).2.2 =
      [Event.createTmp goodInput.tmpName, Event.importBlob testKey,
       Event.removeTmp goodInput.tmpName,
       Event.writeACIInfoRec (testDigest testKey),
       Event.writeAppIndexRec
         (testDigest "example.com/app" ++ testDigest testKey)] ∧
    WriteACI testSha testDigest emptyStore badImportInput true 5 =
      (Except.error ("error importing image: rename failed"),
       { emptyStore with tmp := [badImportInput.tmpName] },
       [Event.createTmp badImportInput.tmpName]) :=
  ⟨c8_ordering.1 testSha testDigest emptyStore goodInput true 5
     ⟨"example.com/app", [⟨"version", "1.0"⟩]⟩ testKey rfl rfl rfl rfl rfl
     rfl rfl (by decide) rfl rfl rfl rfl rfl,
   c8_ordering.2 testSha testDigest emptyStore badImportInput true 5
     ⟨"example.com/app", [⟨"version", "1.0"⟩]⟩ testKey "rename failed" rfl
     rfl rfl rfl rfl rfl rfl (by decide) rfl⟩

/-- C9: two successful `WriteACI` calls on the same input interaction
with `markLatest = true` return the same blob key — the key is a
deterministic function of the decompressed content — and the `aciinfo`
record written by the second call carries an import timestamp at least
the first's. -/
theorem c9_same_bytes_same_key :
    ∀ (sha : List Nat → List Nat) (dig : String → String)
      (st1 st2 : StoreState) (inp : WriteInput) (now1 now2 : Nat)
      (im : ImageManifest) (key1 key2 : String) (r1 r2 : StoreState)
      (e1 e2 : List Event),
      inp.headerErr = none → inp.detectErr = none →
      inp.decompressErr = none → inp.tmpErr = none → inp.copyErr = none →
      inp.manifestRes = Except.ok im → inp.closeErr = none →
      inp.importErr = none → inp.marshalACIInfoErr = none →
      inp.writeACIInfoErr = none → inp.marshalAppIndexErr = none →
      inp.writeAppIndexErr = none → now1 ≤ now2 →
      WriteACI sha dig st1 inp true now1 = (Except.ok key1, r1, e1) →
      WriteACI sha dig st2 inp true now2 = (Except.ok key2, r2, e2) →
      key1 = key2 ∧
      assocGet r1.aciinfo (dig key1) = some (NewACIInfo im key1 true now1) ∧
      assocGet r2.aciinfo (dig key2) = some (NewACIInfo im key2 true now2) ∧
      (NewACIInfo im key1 true now1).time ≤
        (NewACIInfo im key2 true now2).time := by
  intro sha dig st1 st2 inp now1 now2 im key1 key2 r1 r2 e1 e2 h1 h2 h3 h4
    h5 h6 h7 h9 h10 h11 h12 h13 hnow hr1 hr2
  obtain ⟨hk1, -⟩ := writeACI_ok_inv sha dig st1 inp true now1 key1 r1 e1 hr1
  obtain ⟨hk2, -⟩ := writeACI_ok_inv sha dig st2 inp true now2 key2 r2 e2 hr2
  have hkeys : key1 = key2 := by
    rw [hk1] at hk2
    exact Option.some.inj hk2
  have heq1 := writeACI_success_eq sha dig st1 inp true now1 im key1 h1 h2
    h3 h4 h5 h6 h7 hk1 h9 h10 h11 h12 h13
  have heq2 := writeACI_success_eq sha dig st2 inp true now2 im key2 h1 h2
    h3 h4 h5 h6 h7 hk2 h9 h10 h11 h12 h13
  have b1 : r1.aciinfo =
      assocPut st1.aciinfo (dig key1) (NewACIInfo im key1 true now1) := by
    have h := congrArg (fun p => p.2.1) (hr1.symm.trans heq1)
    rw [show r1 = _ from h]
  have b2 : r2.aciinfo =
      assocPut st2.aciinfo (dig key2) (NewACIInfo im key2 true now2) := by
    have h := congrArg (fun p => p.2.1) (hr2.symm.trans heq2)
    rw [show r2 = _ from h]
  refine ⟨hkeys, ?_, ?_, hnow⟩
  · rw [b1]
    exact assocGet_put_self ..
  · rw [b2]
    exact assocGet_put_self ..

/-- Witness for C9: the same successful interaction run at ticks 5 and
7 from an empty store. -/
theorem c9_same_bytes_same_key_witness :
    testKey = testKey ∧
    assocGet (WriteACI testSha testDigest emptyStore goodInput true 5).2.1.aciinfo
        (testDigest testKey) =
      some (NewACIInfo ⟨"example.com/app", [⟨"version", "1.0"⟩]⟩ testKey true 5) ∧
    assocGet (WriteACI testSha testDigest emptyStore goodInput true 7).2.1.aciinfo
        (testDigest testKey) =
      some (NewACIInfo ⟨"example.com/app", [⟨"version", "1.0"⟩]⟩ testKey true 7) ∧
    (NewACIInfo ⟨"example.com/app", [⟨"version", "1.0"⟩]⟩ testKey true 5).time ≤
      (NewACIInfo ⟨"example.com/app", [⟨"version", "1.0"⟩]⟩ testKey true 7).time :=
  c9_same_bytes_same_key testSha testDigest emptyStore emptyStore goodInput
    5 7 ⟨"example.com/app", [⟨"version", "1.0"⟩]⟩ testKey testKey
    (WriteACI testSha testDigest emptyStore goodInput true 5).2.1
    (WriteACI testSha testDigest emptyStore goodInput true 7).2.1
    (WriteACI testSha testDigest emptyStore goodInput true 5).2.2
    (WriteACI testSha testDigest emptyStore goodInput true 7).2.2
    rfl rfl rfl rfl rfl rfl rfl rfl rfl rfl rfl rfl (by omega) rfl rfl

/-! ### Lexicographic-order lemmas for the ordered index -/

theorem listLess_irrefl (l : List Char) : listLess l l = false := by
  induction l with
  | nil => rfl
  | cons a as ih =>
    simp only [listLess, if_neg (lt_irrefl a.toNat)]
    exact ih

theorem listLess_trans (a : List Char) : ∀ b c, listLess a b = true →
    listLess b c = true → listLess a c = true := by
  induction a with
  | nil =>
    intro b c h1 h2
    cases b with
    | nil => simp [listLess] at h1
    | cons y ys =>
      cases c with
      | nil => simp [listLess] at h2
      | cons z zs => rfl
  | cons x xs ih =>
    intro b c h1 h2
    cases b with
    | nil => simp [listLess] at h1
    | cons y ys =>
      cases c with
      | nil => simp [listLess] at h2
      | cons z zs =>
        simp only [listLess] at h1 h2 ⊢
        rcases lt_trichotomy x.toNat y.toNat with hxy | hxy | hxy
        · rcases lt_trichotomy y.toNat z.toNat with hyz | hyz | hyz
          · rw [if_pos (lt_trans hxy hyz)]
          · rw [if_pos (hyz ▸ hxy)]
          · rw [if_neg (lt_asymm hyz), if_pos hyz] at h2
            simp at h2
        · have hn1 : ¬ x.toNat < y.toNat := by rw [hxy]; exact lt_irrefl _
          have hn2 : ¬ y.toNat < x.toNat := by rw [hxy]; exact lt_irrefl _
          rw [if_neg hn1, if_neg hn2] at h1
          rcases lt_trichotomy y.toNat z.toNat with hyz | hyz | hyz
          · rw [if_pos (by rw [hxy]; exact hyz)]
          · have hm1 : ¬ y.toNat < z.toNat := by rw [hyz]; exact lt_irrefl _
            have hm2 : ¬ z.toNat < y.toNat := by rw [hyz]; exact lt_irrefl _
            rw [if_neg hm1, if_neg hm2] at h2
            have hx1 : ¬ x.toNat < z.toNat := by rw [hxy, hyz]; exact lt_irrefl _
            have hx2 : ¬ z.toNat < x.toNat := by rw [hxy, hyz]; exact lt_irrefl _
            rw [if_neg hx1, if_neg hx2]
            exact ih ys zs h1 h2
          · rw [if_neg (lt_asymm hyz), if_pos hyz] at h2
            simp at h2
        · rw [if_neg (lt_asymm hxy), if_pos hxy] at h1
          simp at h1

theorem listLess_append (l t : List Char) (ht : t ≠ []) :
    listLess l (l ++ t) = true := by
  induction l with
  | nil =>
    cases t with
    | nil => exact absurd rfl ht
    | cons c cs => rfl
  | cons a as ih =>
    simp only [List.cons_append, listLess, if_neg (lt_irrefl a.toNat)]
    exact ih

theorem listLess_of_proper_pref (pd kd : List Char)
    (h : pd.isPrefixOf kd = true) (hne : kd ≠ pd) :
    listLess pd kd = true := by
  obtain ⟨t, rfl⟩ := List.isPrefixOf_iff_prefix.mp h
  cases t with
  | nil => simp at hne
  | cons c cs => exact listLess_append pd (c :: cs) (by simp)

theorem strLess_trans {a b c : String} (h1 : strLess a b = true)
    (h2 : strLess b c = true) : strLess a c = true :=
  listLess_trans a.data b.data c.data h1 h2

theorem strLess_irrefl (a : String) : strLess a a = false :=
  listLess_irrefl a.data

theorem strLess_of_proper_pref {p k : String}
    (h : strHasPrefix k p = true) (hne : k ≠ p) : strLess p k = true :=
  listLess_of_proper_pref p.data k.data h
    (fun hd => hne (String.ext hd))

theorem getLastD_mem_cons {α : Type} :
    ∀ (bs : List α) (b d : α), (b :: bs).getLastD d ∈ b :: bs := by
  intro bs
  induction bs with
  | nil => intro b d; simp
  | cons c cs ih =>
    intro b d
    have : (b :: c :: cs).getLastD d = (c :: cs).getLastD b := rfl
    rw [this]
    exact List.mem_cons_of_mem b (ih c b)

/-! ### The candidate-enumeration loop of `GetACI` -/

theorem scanBatch_fst (start : String) :
    ∀ (batch acc : List String) (f : Bool),
    (scanBatch start (acc, f) batch).1 =
      acc ++ batch.filter (fun k => strHasPrefix k start) := by
  intro batch
  induction batch with
  | nil => intro acc f; simp [scanBatch]
  | cons x xs ih =>
    intro acc f
    simp only [scanBatch, List.foldl_cons] at ih ⊢
    cases hx : strHasPrefix x start
    · simp only [hx, Bool.false_eq_true, if_false, List.filter_cons_of_neg,
        Bool.not_eq_true]
      rw [ih acc true]
      simp [List.filter_cons, hx]
    · simp only [hx, if_true]
      rw [ih (acc ++ [x]) f]
      simp [List.filter_cons, hx]

/-- The loop invariant argument for `GetACI`'s candidate enumeration:
with enough fuel the loop terminates, it never drops a collected key,
and (when not already finished) it keeps every key of the next batch
that passes the prefix test against the current start. -/
theorem collectLoop_spec (idx : List String) :
    ∀ (fuel : Nat) (start : String) (finished : Bool) (acc : List String),
      (idx.filter (fun k => strLess start k)).length < fuel →
      ∃ res, collectLoop idx fuel start finished acc = some res ∧
        (∀ k ∈ acc, k ∈ res) ∧
        (finished = false → ∀ k ∈ indexKeysFrom idx start 10,
          strHasPrefix k start = true → k ∈ res) := by
  intro fuel
  induction fuel with
  | zero =>
    intro start finished acc hlt
    omega
  | succ fuel ih =>
    intro start finished acc hfuel
    cases finished with
    | true =>
      refine ⟨acc, rfl, fun k hk => hk, ?_⟩
      intro hft
      cases hft
    | false =>
      cases hb : indexKeysFrom idx start 10 with
      | nil =>
        refine ⟨acc, ?_, fun k hk => hk, ?_⟩
        · show collectLoop idx (fuel + 1) start false acc = some acc
          rw [show collectLoop idx (fuel + 1) start false acc =
            (match indexKeysFrom idx start 10 with
             | [] => some acc
             | k :: ks =>
               let r := scanBatch start (acc, false) (k :: ks)
               collectLoop idx fuel ((k :: ks).getLastD start) r.2 r.1)
            from rfl, hb]
        · intro _ k hk
          cases hk
      | cons b bs =>
        have hb' : (idx.filter (fun k => strLess start k)).take 10 = b :: bs :=
          hb
        have hxf : ∀ x ∈ b :: bs,
            x ∈ idx.filter (fun k => strLess start k) := by
          intro x hx
          rw [← hb'] at hx
          exact List.mem_of_mem_take hx
        have hlast : (b :: bs).getLastD start ∈ b :: bs :=
          getLastD_mem_cons bs b start
        have hlf := List.mem_filter.mp (hxf _ hlast)
        have hss' : strLess start ((b :: bs).getLastD start) = true := hlf.2
        have hsub : List.Sublist
            (idx.filter (fun k => strLess ((b :: bs).getLastD start) k))
            (idx.filter (fun k => strLess start k)) :=
          List.monotone_filter_right idx
            (fun a ha => strLess_trans hss' ha)
        have hnotmem : (b :: bs).getLastD start ∉
            idx.filter (fun k => strLess ((b :: bs).getLastD start) k) := by
          intro hmem
          have := (List.mem_filter.mp hmem).2
          rw [strLess_irrefl] at this
          cases this
        have hlt' : (idx.filter
            (fun k => strLess ((b :: bs).getLastD start) k)).length <
            (idx.filter (fun k => strLess start k)).length := by
          rcases Nat.lt_or_ge
            (idx.filter
              (fun k => strLess ((b :: bs).getLastD start) k)).length
            (idx.filter (fun k => strLess start k)).length with hlt | hge
          · exact hlt
          · have heq := Nat.le_antisymm hsub.length_le hge
            have := hsub.eq_of_length heq
            rw [this] at hnotmem
            exact absurd (List.mem_filter.mpr ⟨hlf.1, hss'⟩) hnotmem
        have hfuel' : (idx.filter
            (fun k => strLess ((b :: bs).getLastD start) k)).length <
            fuel := by
          omega
        obtain ⟨res, hloop, hkeep, -⟩ := ih ((b :: bs).getLastD start)
          (scanBatch start (acc, false) (b :: bs)).2
          (scanBatch start (acc, false) (b :: bs)).1 hfuel'
        have hacc' : (scanBatch start (acc, false) (b :: bs)).1 =
            acc ++ (b :: bs).filter (fun k => strHasPrefix k start) :=
          scanBatch_fst start (b :: bs) acc false
        refine ⟨res, ?_, ?_, ?_⟩
        · show collectLoop idx (fuel + 1) start false acc = some res
          rw [show collectLoop idx (fuel + 1) start false acc =
            (match indexKeysFrom idx start 10 with
             | [] => some acc
             | k :: ks =>
               let r := scanBatch start (acc, false) (k :: ks)
               collectLoop idx fuel ((k :: ks).getLastD start) r.2 r.1)
            from rfl, hb]
          exact hloop
        · intro k hk
          apply hkeep
          rw [hacc']
          exact List.mem_append_left _ hk
        · intro _ k hk hkpre
          apply hkeep
          rw [hacc']
          exact List.mem_append_right _ (List.mem_filter.mpr ⟨hk, hkpre⟩)

/-- C10 counterexample: the enumeration loop drops matches beyond the
first batch.  Over the strictly ascending index of eleven equal-length
keys `p00 … p10`, all carrying the prefix `"p"`, the loop collects the
first batch of ten, then prefix-tests `"p10"` against the advanced start
key `"p09"` (`cas.go` lines 264 and 270), fails, and finishes: the
collected list misses the stored prefixed key `"p10"`.  A stored key
exactly equal to the prefix is dropped too, the `Keys` query being
`from`-exclusive. -/
theorem c10_counterexample :
    (List.Pairwise (fun a b => strLess a b = true) keys11 ∧
     collectKeys keys11 "p" = some keys10 ∧
     strHasPrefix "p10" "p" = true ∧ "p10" ∈ keys11 ∧ "p10" ∉ keys10) ∧
    (List.Pairwise (fun a b => strLess a b = true) ["ab"] ∧
     collectKeys ["ab"] "ab" = some [] ∧
     strHasPrefix "ab" "ab" = true) := by
  exact ⟨⟨by decide, by decide, by decide, by decide, by decide⟩,
    by decide, by decide, by decide⟩

/-- C10 (amended): over every strictly ascending finite index — on which
the modelled `Keys(from, n)` returns at most `n` keys ≥ `from` in
ascending order and never `from` itself — the batched enumeration loop
of `GetACI` terminates; the collected key list contains every stored key
that passes the prefix test within the first batch of ten keys greater
than `shortDigest(name)`, and when at most ten stored keys are greater
than that digest it contains every stored key properly extending it.
Prefixed keys beyond the first batch, and a key equal to the digest
itself, can be dropped (see the counterexample). -/
theorem c10_enumeration (idx : List String) (p : String)
    (_hsorted : List.Pairwise (fun a b => strLess a b = true) idx) :
    ∃ res, collectKeys idx p = some res ∧
      (∀ k ∈ indexKeysFrom idx p 10, strHasPrefix k p = true → k ∈ res) ∧
      ((idx.filter (fun k => strLess p k)).length ≤ 10 →
        ∀ k ∈ idx, strHasPrefix k p = true → k ≠ p → k ∈ res) := by
  obtain ⟨res, h1, -, hbatch⟩ := collectLoop_spec idx (idx.length + 1) p
    false []
    (by
      have := (List.filter_sublist idx
        (p := fun k => strLess p k)).length_le
      omega)
  refine ⟨res, h1, hbatch rfl, ?_⟩
  intro hle k hk hkp hkne
  apply hbatch rfl k ?_ hkp
  have hkf : k ∈ idx.filter (fun k => strLess p k) :=
    List.mem_filter.mpr ⟨hk, strLess_of_proper_pref hkp hkne⟩
  show k ∈ (idx.filter (fun k => strLess p k)).take 10
  rw [List.take_of_length_le hle]
  exact hkf

/-- Witness for C10 at a concrete ascending index: the single stored key
lies in the first batch and properly extends the prefix, so it is
collected. -/
theorem c10_enumeration_witness :
    ∃ res, collectKeys ["exam0"] "exam" = some res ∧
      (∀ k ∈ indexKeysFrom ["exam0"] "exam" 10,
        strHasPrefix k "exam" = true → k ∈ res) ∧
      (((["exam0"] : List String).filter
          (fun k => strLess "exam" k)).length ≤ 10 →
        ∀ k ∈ (["exam0"] : List String), strHasPrefix k "exam" = true →
          k ≠ "exam" → k ∈ res) :=
  c10_enumeration ["exam0"] "exam" (by simp)

/-- C6 counterexample: at a concrete admission into the empty store whose
decompressed digest is the 64 zero bytes, the returned key is the 71
character `sha512-` key, not `sha512-` followed by the first 128 hex
characters of the digest (all 128 of them). -/
theorem c6_counterexample :
    (WriteACI testSha testDigest emptyStore goodInput true 5).1 =
      Except.ok testKey ∧
    testKey ≠
      ⟨hashPrefixStr.data ++
        (bytesToHex (testSha goodInput.bytes)).take 128⟩ := by
  refine ⟨rfl, by decide⟩

/-- C6 (amended): admitting into an empty store an uncompressed tar whose
decompressed digest is `D` returns the key `sha512-` concatenated with
the first 64 hex characters of `hex(D)`. -/
theorem c6_fresh_admission_key (sha : List Nat → List Nat)
    (dig : String → String) (inp : WriteInput) (latest : Bool) (now : Nat)
    (key : String) (st2 : StoreState) (evs : List Event)
    (h : WriteACI sha dig emptyStore inp latest now =
      (Except.ok key, st2, evs)) :
    key = ⟨hashPrefixStr.data ++ (bytesToHex (sha inp.bytes)).take 64⟩ := by
  obtain ⟨hk, -⟩ :=
    writeACI_ok_inv sha dig emptyStore inp latest now key st2 evs h
  have hlen : (sha inp.bytes).length = lenHash := by
    by_contra hne
    unfold HashToKey at hk
    rw [if_neg hne] at hk
    cases hk
  rw [hashToKey_eq _ hlen] at hk
  have hkey := Option.some.inj hk
  rw [← hkey, bytesToHex_take]
  rfl

/-- Witness for C6 (amended) at the concrete all-zero digest run. -/
theorem c6_fresh_admission_key_witness :
    testKey =
      ⟨hashPrefixStr.data ++
        (bytesToHex (testSha goodInput.bytes)).take 64⟩ :=
  c6_fresh_admission_key testSha testDigest goodInput true 5 testKey
    (WriteACI testSha testDigest emptyStore goodInput true 5).2.1
    (WriteACI testSha testDigest emptyStore goodInput true 5).2.2 rfl

end Cas
